import Mathlib

/-!
Verification of the Prometheus metrics-audit script.

The script queries Prometheus for all metric names and active scrape
targets, classifies every metric name into a source bucket
(recording-rule detection by substring patterns, then an ordered
first-match prefix table, then a catch-all), aggregates the scrape
targets per job label, and renders a report or fails with exit code 1
when either upstream query fails.

This file gives a shallow embedding of the script: Python strings are
Lean strings (compared as their character lists), Python dicts that are
built by repeated "read or default, then write back" accesses
(collections.defaultdict) are association lists updated in place at the
first occurrence of the key, the requests/JSON layer is an explicit
input describing either a raised exception or an HTTP response, and
process termination is an explicit outcome value.
-/

namespace AuditMetrics

/-- Python list/str prefix test on character lists: the first list is a
prefix of the second. -/
def startsWithL : List Char → List Char → Bool
  | [], _ => true
  | _ :: _, [] => false
  | p :: ps, c :: cs => p == c && startsWithL ps cs

/-- Python substring test (the in operator on str): the first list occurs
contiguously inside the second. -/
def containsL (pat : List Char) : List Char → Bool
  | [] => startsWithL pat []
  | c :: cs => startsWithL pat (c :: cs) || containsL pat cs

/-- Python metric.startswith(pat). -/
def strStartsWith (s pat : String) : Bool := startsWithL pat.data s.data

/-- Python pat in s (substring containment). -/
def strContains (s pat : String) : Bool := containsL pat.data s.data

/-- Python lexicographic comparison of strings by code point, the order
used by sorted(). -/
def lexLe : List Char → List Char → Bool
  | [], _ => true
  | _ :: _, [] => false
  | a :: as, b :: bs =>
    if a.toNat < b.toNat then true
    else if b.toNat < a.toNat then false
    else lexLe as bs

/-- Python sorted() on a list of strings. -/
def sortStrings (l : List String) : List String :=
  List.insertionSort (fun a b => lexLe a.data b.data = true) l

/-- One value of the METRIC_SOURCES table: display name, description and
associated job of a metric source. -/
structure SourceInfo where
  name : String
  description : String
  job : String
deriving DecidableEq

/-- The METRIC_SOURCES dict of the script: known metric prefix patterns
and their sources, in declaration order (Python dicts iterate in
insertion order). -/
def METRIC_SOURCES : List (String × SourceInfo) :=
  [ ("kube_", ⟨"kube-state-metrics", "Kubernetes object state metrics", "kube-state-metrics"⟩),
    ("node_", ⟨"node-exporter", "Host/node hardware and OS metrics", "node-exporter"⟩),
    ("container_", ⟨"cAdvisor", "Container resource usage and performance metrics", "kubelet"⟩),
    ("kubelet_", ⟨"Kubelet", "Kubelet component metrics", "kubelet"⟩),
    ("prometheus_", ⟨"Prometheus", "Prometheus server self-monitoring metrics", "prometheus"⟩),
    ("alertmanager_", ⟨"Alertmanager", "Alertmanager metrics", "alertmanager"⟩),
    ("grafana_", ⟨"Grafana", "Grafana metrics", "grafana"⟩),
    ("otelcol_", ⟨"OpenTelemetry Collector", "OTel Collector metrics", "gateway-collector"⟩),
    ("up", ⟨"Prometheus", "Target up/down status (Prometheus internal)", "various"⟩),
    ("scrape_", ⟨"Prometheus", "Scrape metadata (Prometheus internal)", "various"⟩) ]

/-- The RECORDING_RULE_PATTERNS list of the script: substrings whose
presence marks a metric as produced by a recording rule. -/
def RECORDING_RULE_PATTERNS : List String :=
  [":", "cluster:", "node:", "namespace:", "pod:"]

/-- The is_recording_rule test inside categorize_metrics:
any(pattern in metric for pattern in RECORDING_RULE_PATTERNS). -/
def is_recording_rule (metric : String) : Bool :=
  RECORDING_RULE_PATTERNS.any (fun pat => strContains metric pat)

/-- The first entry of the rule table whose prefix matches the metric,
scanning in declaration order: the body of the for loop over
METRIC_SOURCES.items() with its break. -/
def findSourceIn (rules : List (String × SourceInfo)) (metric : String) :
    Option (String × SourceInfo) :=
  rules.find? (fun rule => strStartsWith metric rule.1)

/-- The bucket name categorize_metrics assigns to one metric: Recording
Rules when a pattern matches and the metric is not one of the three
excluded literals, otherwise the first matching prefix rule's display
name, otherwise Other/Unknown. -/
def bucketOf (metric : String) : String :=
  if is_recording_rule metric = true ∧
      metric ∉ (["up", "scrape_duration_seconds", "scrape_samples_scraped"] : List String) then
    "Recording Rules"
  else
    match findSourceIn METRIC_SOURCES metric with
    | some rule => rule.2.name
    | none => "Other/Unknown"

/-- A Python defaultdict update d[key] gets-modified-by f: the entry of
the key is rewritten in place through f, starting from the default value
when the key is absent (a fresh key is appended, matching dict insertion
order). -/
def upsert {α : Type} (d : List (String × α)) (key : String) (dflt : α) (f : α → α) :
    List (String × α) :=
  match d with
  | [] => [(key, f dflt)]
  | kv :: rest =>
    if kv.1 = key then (kv.1, f kv.2) :: rest else kv :: upsert rest key dflt f

/-- First-occurrence lookup in an association list (Python dict access;
keys built by upsert are unique). -/
def alookup {α : Type} : List (String × α) → String → Option α
  | [], _ => none
  | kv :: rest, key => if kv.1 = key then some kv.2 else alookup rest key

/-- The categorize_metrics function of the script: fold the metric list
into a defaultdict(list) keyed by bucket name, appending each metric to
its bucket. -/
def categorize_metrics (metrics : List String) : List (String × List String) :=
  metrics.foldl (fun acc metric => upsert acc (bucketOf metric) [] (fun l => l ++ [metric])) []

/-- Contents of one bucket of a classification result ([] when the
bucket is absent, as for a defaultdict that was never touched). -/
def lookupBucket (d : List (String × List String)) (b : String) : List String :=
  (alookup d b).getD []

/-- One active scrape target as read from the targets payload: the
fields the script uses (a labels dict, a health string, a scrape URL). -/
structure Target where
  labels : List (String × String)
  health : String
  scrapeUrl : String
deriving DecidableEq

/-- One endpoint record stored by get_job_stats. -/
structure Endpoint where
  url : String
  health : String
  labels : List (String × String)
deriving DecidableEq

/-- One value of the job_stats defaultdict: total targets, healthy
targets and the endpoint detail records of one job. -/
structure JobStat where
  count : Nat
  up : Nat
  endpoints : List Endpoint
deriving DecidableEq

/-- The default value of the job_stats defaultdict. -/
def emptyStat : JobStat := ⟨0, 0, []⟩

/-- Python d.get(key, dflt) on a string dict. -/
def dictGet (d : List (String × String)) (key dflt : String) : String :=
  match alookup d key with
  | some v => v
  | none => dflt

/-- The job key of one target: target["labels"].get("job", "unknown"). -/
def jobOf (t : Target) : String := dictGet t.labels "job" "unknown"

/-- The endpoint record get_job_stats appends for one target. -/
def targetEndpoint (t : Target) : Endpoint := ⟨t.scrapeUrl, t.health, t.labels⟩

/-- The loop body of get_job_stats on one target's job entry: count up
by one, up by one when healthy, endpoint appended. -/
def addTarget (t : Target) (v : JobStat) : JobStat :=
  { count := v.count + 1
    up := if t.health = "up" then v.up + 1 else v.up
    endpoints := v.endpoints ++ [targetEndpoint t] }

/-- The get_job_stats function of the script: fold the target list into
a defaultdict keyed by job label. -/
def get_job_stats (targets : List Target) : List (String × JobStat) :=
  targets.foldl (fun acc t => upsert acc (jobOf t) emptyStat (addTarget t)) []

/-- The job_stats entry of one job (the defaultdict default when the job
never occurred). -/
def jobStatOf (ts : List Target) (j : String) : JobStat :=
  (alookup (get_job_stats ts) j).getD emptyStat

/-- Abstract outcome of requests.get(url, timeout=10): either the call
raised a RequestException (connection failure or timeout), or it
returned an HTTP response with a status code and a body; a none body is
one that is not valid JSON (response.json() then raises, and that
exception is a RequestException as well). -/
inductive HttpOutcome (α : Type) where
  | exc (msg : String)
  | resp (code : Nat) (body : Option α)
deriving DecidableEq

/-- The query_prometheus function: response.raise_for_status() raises
for a 4xx or 5xx status code, then the JSON body is returned; every
RequestException is caught and turns into the error message printed to
stderr before sys.exit(1). -/
def query_prometheus {α : Type} (r : HttpOutcome α) : Except String α :=
  match r with
  | .exc msg => .error ("Error querying Prometheus: " ++ msg)
  | .resp code body =>
    if 400 ≤ code ∧ code < 600 then
      .error "Error querying Prometheus: HTTP error"
    else
      match body with
      | none => .error "Error querying Prometheus: invalid JSON"
      | some b => .ok b

/-- Parsed body of the label values endpoint:
{status, data: [metric names]}. -/
structure MetricsBody where
  status : String
  data : List String
deriving DecidableEq

/-- Parsed body of the targets endpoint:
{status, data: {activeTargets: [...]}}. -/
structure TargetsBody where
  status : String
  activeTargets : List Target
deriving DecidableEq

/-- The get_all_metrics function: query, reject a non-"success" status
envelope, return the sorted metric names. -/
def get_all_metrics (r : HttpOutcome MetricsBody) : Except String (List String) :=
  match query_prometheus r with
  | .error e => .error e
  | .ok d =>
    if d.status ≠ "success" then .error "Failed to get metrics from Prometheus"
    else .ok (sortStrings d.data)

/-- The get_targets function: query, reject a non-"success" status
envelope, return the activeTargets array. -/
def get_targets (r : HttpOutcome TargetsBody) : Except String (List Target) :=
  match query_prometheus r with
  | .error e => .error e
  | .ok d =>
    if d.status ≠ "success" then .error "Failed to get targets from Prometheus"
    else .ok d.activeTargets

/-- The data both renderers print: the classification and the per-job
statistics. -/
structure Report where
  categorized : List (String × List String)
  job_stats : List (String × JobStat)
deriving DecidableEq

/-- Observable end of the process: emitted r is exit code 0 with the
rendered report on standard output; failed e is the message e on the
error stream, exit code 1, and nothing written to standard output. -/
inductive ProcOutcome where
  | emitted (r : Report)
  | failed (e : String)
deriving DecidableEq

/-- The main function: fetch metrics, then targets (each aborting the
process on failure before anything is printed to standard output), then
categorize, aggregate and render. -/
def main (rm : HttpOutcome MetricsBody) (rt : HttpOutcome TargetsBody) : ProcOutcome :=
  match get_all_metrics rm with
  | .error e => .failed e
  | .ok metrics =>
    match get_targets rt with
    | .error e => .failed e
    | .ok targets => .emitted ⟨categorize_metrics metrics, get_job_stats targets⟩

/-- The failure modes of one upstream query named by the specification:
the request raises (connection failure or timeout), the response has an
HTTP error status, or the envelope parses but its status field is not
"success". -/
def upstreamFailed {α : Type} (status : α → String) : HttpOutcome α → Prop
  | .exc _ => True
  | .resp code body => (400 ≤ code ∧ code < 600) ∨ ∃ b, body = some b ∧ status b ≠ "success"

/-- A scrape target as raw JSON: any of the three fields the script
reads unconditionally may be absent. -/
structure RawTarget where
  labels : Option (List (String × String))
  health : Option String
  scrapeUrl : Option String
deriving DecidableEq

/-- The loop body of get_job_stats on a raw target, with Python's
KeyError made explicit: target["labels"], target["health"] and
target["scrapeUrl"] are read in this order and raise when absent, while
the job key is read with .get and a default. -/
def stepRaw (acc : List (String × JobStat)) (t : RawTarget) :
    Except String (List (String × JobStat)) :=
  match t.labels with
  | none => .error "KeyError: labels"
  | some labels =>
    match t.health with
    | none => .error "KeyError: health"
    | some health =>
      match t.scrapeUrl with
      | none => .error "KeyError: scrapeUrl"
      | some surl =>
        .ok (upsert acc (dictGet labels "job" "unknown") emptyStat (fun v =>
          { count := v.count + 1
            up := if health = "up" then v.up + 1 else v.up
            endpoints := v.endpoints ++ [⟨surl, health, labels⟩] }))

/-- The for loop of get_job_stats over raw targets: an uncaught KeyError
aborts the whole computation. -/
def runChecked (acc : List (String × JobStat)) :
    List RawTarget → Except String (List (String × JobStat))
  | [] => .ok acc
  | t :: ts =>
    match stepRaw acc t with
    | .error e => .error e
    | .ok acc2 => runChecked acc2 ts

/-- get_job_stats over raw JSON targets, KeyError included. -/
def get_job_stats_checked (targets : List RawTarget) :
    Except String (List (String × JobStat)) :=
  runChecked [] targets

/-- Concatenation of the values of an association list under a
projection to lists. -/
def flattenValues {α β : Type} (g : α → List β) : List (String × α) → List β
  | [] => []
  | kv :: rest => g kv.2 ++ flattenValues g rest

theorem alookup_upsert {α : Type} (d : List (String × α)) (key : String) (dflt : α)
    (f : α → α) (q : String) :
    alookup (upsert d key dflt f) q =
      if q = key then some (f ((alookup d key).getD dflt)) else alookup d q := by
  induction d with
  | nil =>
    by_cases h : q = key
    · subst h; simp [upsert, alookup]
    · simp [upsert, alookup, h, Ne.symm h]
  | cons kv rest ih =>
    by_cases hk : kv.1 = key
    · by_cases hq : q = key
      · subst hq; simp [upsert, alookup, hk]
      · have hkq : kv.1 ≠ q := by rw [hk]; exact Ne.symm hq
        simp [upsert, alookup, hk, hq, hkq, Ne.symm hq]
    · by_cases hq : kv.1 = q
      · have : q ≠ key := by rw [← hq]; exact fun hh => hk hh
        simp [upsert, alookup, hk, hq, this]
      · simp [upsert, alookup, hk, hq, ih]

theorem lookupBucket_categorize (ms : List String) (b : String) :
    lookupBucket (categorize_metrics ms) b =
      ms.filter (fun metric => bucketOf metric == b) := by
  have key : ∀ acc : List (String × List String),
      lookupBucket
          (ms.foldl (fun acc metric => upsert acc (bucketOf metric) [] (fun l => l ++ [metric])) acc) b
        = lookupBucket acc b ++ ms.filter (fun metric => bucketOf metric == b) := by
    induction ms with
    | nil => intro acc; simp
    | cons m ms ih =>
      intro acc
      rw [List.foldl_cons, ih, List.filter_cons]
      unfold lookupBucket
      rw [alookup_upsert]
      by_cases h : b = bucketOf m
      · rw [if_pos h, if_pos (by simp [h]), ← h]
        simp [List.append_assoc]
      · rw [if_neg h, if_neg (by simp; exact fun hh => h hh.symm)]
  have h0 := key []
  simpa [categorize_metrics, lookupBucket, alookup] using h0

theorem flattenValues_upsert_perm {α β : Type} (g : α → List β) (d : List (String × α))
    (key : String) (dflt : α) (f : α → α) (e : β)
    (hf : ∀ v, g (f v) = g v ++ [e]) (hd : g dflt = []) :
    List.Perm (flattenValues g (upsert d key dflt f)) (e :: flattenValues g d) := by
  induction d with
  | nil =>
    simp only [upsert, flattenValues, hf, hd, List.nil_append, List.append_nil]
    exact List.Perm.refl _
  | cons kv rest ih =>
    by_cases h : kv.1 = key
    · simp only [upsert, if_pos h, flattenValues, hf, List.append_assoc]
      exact List.perm_middle
    · simp only [upsert, if_neg h, flattenValues]
      exact (List.Perm.append_left (g kv.2) ih).trans List.perm_middle

theorem flattenValues_foldl_perm {τ α β : Type} (g : α → List β) (keyf : τ → String)
    (fstep : τ → α → α) (eOf : τ → β) (dflt : α)
    (hf : ∀ t v, g (fstep t v) = g v ++ [eOf t]) (hd : g dflt = []) (ts : List τ) :
    ∀ acc : List (String × α),
      List.Perm (flattenValues g (ts.foldl (fun d t => upsert d (keyf t) dflt (fstep t)) acc))
        (flattenValues g acc ++ ts.map eOf) := by
  induction ts with
  | nil =>
    intro acc
    rw [List.foldl_nil, List.map_nil, List.append_nil]
  | cons t ts ih =>
    intro acc
    rw [List.foldl_cons]
    refine (ih _).trans ?_
    have h1 := flattenValues_upsert_perm g acc (keyf t) dflt (fstep t) (eOf t) (hf t) hd
    exact (h1.append_right (ts.map eOf)).trans List.perm_middle.symm

theorem upsert_forall {α : Type} (Q : α → Prop) (d : List (String × α)) (key : String)
    (dflt : α) (f : α → α) (hd : ∀ p ∈ d, Q p.2) (hf : ∀ v, Q v → Q (f v)) (h0 : Q dflt) :
    ∀ p ∈ upsert d key dflt f, Q p.2 := by
  induction d with
  | nil =>
    intro p hp
    simp [upsert] at hp
    rw [hp]
    exact hf dflt h0
  | cons kv rest ih =>
    intro p hp
    by_cases h : kv.1 = key
    · simp [upsert, h] at hp
      rcases hp with hp | hp
      · rw [hp]; exact hf kv.2 (hd kv (by simp))
      · exact hd p (by simp [hp])
    · simp [upsert, h] at hp
      rcases hp with hp | hp
      · rw [hp]; exact hd kv (by simp)
      · exact ih (fun q hq => hd q (by simp [hq])) p hp

theorem foldl_upsert_forall {τ α : Type} (Q : α → Prop) (keyf : τ → String)
    (fstep : τ → α → α) (dflt : α) (hf : ∀ t v, Q v → Q (fstep t v)) (h0 : Q dflt)
    (ts : List τ) :
    ∀ acc : List (String × α), (∀ p ∈ acc, Q p.2) →
      ∀ p ∈ ts.foldl (fun d t => upsert d (keyf t) dflt (fstep t)) acc, Q p.2 := by
  induction ts with
  | nil => intro acc hacc; exact hacc
  | cons t ts ih =>
    intro acc hacc
    rw [List.foldl_cons]
    exact ih _ (upsert_forall Q acc (keyf t) dflt (fstep t) hacc (hf t) h0)

theorem alookup_foldl_upsert {τ α : Type} (keyf : τ → String) (fstep : τ → α → α)
    (dflt : α) (ts : List τ) :
    ∀ (acc : List (String × α)) (j : String),
      (alookup (ts.foldl (fun d t => upsert d (keyf t) dflt (fstep t)) acc) j).getD dflt =
        (ts.filter (fun t => keyf t == j)).foldl (fun v t => fstep t v)
          ((alookup acc j).getD dflt) := by
  induction ts with
  | nil => intro acc j; simp
  | cons t ts ih =>
    intro acc j
    rw [List.foldl_cons, ih, List.filter_cons]
    by_cases h : keyf t = j
    · rw [if_pos (by simp [h]), List.foldl_cons]
      congr 1
      rw [alookup_upsert, if_pos h.symm, Option.getD_some, h]
    · rw [if_neg (by simp [h]), alookup_upsert, if_neg (Ne.symm h)]

theorem alookup_isSome_foldl_upsert {τ α : Type} (keyf : τ → String) (fstep : τ → α → α)
    (dflt : α) (ts : List τ) :
    ∀ (acc : List (String × α)) (j : String),
      (alookup (ts.foldl (fun d t => upsert d (keyf t) dflt (fstep t)) acc) j).isSome =
        ((alookup acc j).isSome || ts.any (fun t => keyf t == j)) := by
  induction ts with
  | nil => intro acc j; simp
  | cons t ts ih =>
    intro acc j
    rw [List.foldl_cons, ih, List.any_cons]
    by_cases h : keyf t = j
    · rw [alookup_upsert, if_pos h.symm]
      simp [h]
    · have hb : (keyf t == j) = false := by simp [h]
      rw [alookup_upsert, if_neg (Ne.symm h), hb]
      simp

theorem foldl_addTarget_count (l : List Target) :
    ∀ v : JobStat, (l.foldl (fun v t => addTarget t v) v).count = v.count + l.length := by
  induction l with
  | nil => intro v; simp
  | cons t l ih =>
    intro v
    rw [List.foldl_cons, ih]
    simp [addTarget]
    omega

theorem foldl_addTarget_up (l : List Target) :
    ∀ v : JobStat, (l.foldl (fun v t => addTarget t v) v).up =
      v.up + (l.filter (fun t => t.health == "up")).length := by
  induction l with
  | nil => intro v; simp
  | cons t l ih =>
    intro v
    rw [List.foldl_cons, ih, List.filter_cons]
    by_cases h : t.health = "up"
    · simp [addTarget, h]
      omega
    · simp [addTarget, h]

/-- C1: for every input list of metric names, categorize_metrics
produces a partition: the concatenation of all bucket contents contains
each name exactly as many times as it occurs in the input (no omissions,
no duplicates), and every input name lies in exactly one bucket. -/
theorem categorize_metrics_partition (ms : List String) :
    (∀ x, (flattenValues (fun l => l) (categorize_metrics ms)).count x = ms.count x) ∧
    (∀ x ∈ ms, ∃! b : String, x ∈ lookupBucket (categorize_metrics ms) b) := by
  constructor
  · intro x
    have hp := flattenValues_foldl_perm (fun l => l) bucketOf
      (fun metric l => l ++ [metric]) (fun metric => metric) []
      (fun t v => rfl) rfl ms []
    have hperm : List.Perm (flattenValues (fun l => l) (categorize_metrics ms)) ms := by
      simpa [categorize_metrics, flattenValues] using hp
    exact hperm.count_eq x
  · intro x hx
    have hmem : ∀ b : String,
        x ∈ lookupBucket (categorize_metrics ms) b ↔ x ∈ ms ∧ bucketOf x = b := by
      intro b
      rw [lookupBucket_categorize, List.mem_filter]
      simp
    refine ⟨bucketOf x, ?_, ?_⟩
    · exact (hmem (bucketOf x)).mpr ⟨hx, rfl⟩
    · intro b hb
      exact (((hmem b).mp hb).2).symm

/-- C2: a metric name containing one of the recording-rule pattern
substrings and distinct from the three excluded literal names is put in
the Recording Rules bucket, whatever prefixes it might also match. -/
theorem recording_rules_priority (ms : List String) (m : String) (h1 : m ∈ ms)
    (h2 : is_recording_rule m = true)
    (h3 : m ∉ (["up", "scrape_duration_seconds", "scrape_samples_scraped"] : List String)) :
    m ∈ lookupBucket (categorize_metrics ms) "Recording Rules" := by
  have hb : bucketOf m = "Recording Rules" := by
    unfold bucketOf
    rw [if_pos ⟨h2, h3⟩]
  rw [lookupBucket_categorize, List.mem_filter]
  exact ⟨h1, by simp [hb]⟩

/-- Witness for C2: kube_pod:foo contains a colon and starts with the
kube_ prefix, yet lands in Recording Rules. -/
theorem recording_rules_priority_witness :
    "kube_pod:foo" ∈ lookupBucket (categorize_metrics ["kube_pod:foo"]) "Recording Rules" :=
  recording_rules_priority ["kube_pod:foo"] "kube_pod:foo" (by decide) (by decide) (by decide)

/-- C3: the prefix scan of categorize_metrics honours declaration order:
when no rule before r matches the metric and r's prefix matches, the
scan returns r, whatever later rules (matching included) say. -/
theorem first_prefix_match_wins (rules₁ rules₂ : List (String × SourceInfo))
    (r : String × SourceInfo) (m : String)
    (h1 : ∀ q ∈ rules₁, strStartsWith m q.1 = false)
    (h2 : strStartsWith m r.1 = true) :
    findSourceIn (rules₁ ++ r :: rules₂) m = some r := by
  induction rules₁ with
  | nil =>
    unfold findSourceIn
    rw [List.nil_append]
    exact @List.find?_cons_of_pos _ (fun rule => strStartsWith m rule.1) r rules₂ h2
  | cons q qs ih =>
    have hq : strStartsWith m q.1 = false := h1 q (by simp)
    have hstep := @List.find?_cons_of_neg _ (fun rule => strStartsWith m rule.1) q
      (qs ++ r :: rules₂) (by simp [hq])
    unfold findSourceIn
    rw [List.cons_append, hstep]
    exact ih (fun p hp => h1 p (by simp [hp]))

/-- Witness for C3: on a rule table where two rules' prefixes both match
the name, the earlier rule decides. -/
theorem first_prefix_match_wins_witness :
    findSourceIn
        [("node_", ⟨"node-exporter", "d1", "j1"⟩),
          ("kube_", ⟨"kube-state-metrics", "d2", "j2"⟩),
          ("kube", ⟨"other", "d3", "j3"⟩)] "kube_pod_info" =
      some ("kube_", ⟨"kube-state-metrics", "d2", "j2"⟩) :=
  first_prefix_match_wins [("node_", ⟨"node-exporter", "d1", "j1"⟩)]
    [("kube", ⟨"other", "d3", "j3"⟩)] ("kube_", ⟨"kube-state-metrics", "d2", "j2"⟩)
    "kube_pod_info" (by decide) (by decide)

/-- C4: the three excluded literal names are classified by prefix rule
into the Prometheus bucket and never into Recording Rules. -/
theorem excluded_names_prometheus (ms : List String) (m : String)
    (hm : m ∈ (["up", "scrape_duration_seconds", "scrape_samples_scraped"] : List String))
    (hin : m ∈ ms) :
    m ∈ lookupBucket (categorize_metrics ms) "Prometheus" ∧
      m ∉ lookupBucket (categorize_metrics ms) "Recording Rules" := by
  have hb : bucketOf m = "Prometheus" := by
    simp at hm
    rcases hm with hm | hm | hm <;> subst hm <;> decide
  constructor
  · rw [lookupBucket_categorize, List.mem_filter]
    exact ⟨hin, by simp [hb]⟩
  · rw [lookupBucket_categorize, List.mem_filter]
    intro hcontra
    exact absurd hcontra.2 (by rw [hb]; decide)

/-- Witness for C4 at the name up among all three excluded names. -/
theorem excluded_names_prometheus_witness :
    "up" ∈ lookupBucket
        (categorize_metrics ["up", "scrape_duration_seconds", "scrape_samples_scraped"])
        "Prometheus" ∧
      "up" ∉ lookupBucket
        (categorize_metrics ["up", "scrape_duration_seconds", "scrape_samples_scraped"])
        "Recording Rules" :=
  excluded_names_prometheus ["up", "scrape_duration_seconds", "scrape_samples_scraped"]
    "up" (by decide) (by decide)

theorem flattenValues_length {α β : Type} (g : α → List β) (d : List (String × α)) :
    (flattenValues g d).length = (d.map (fun p => (g p.2).length)).sum := by
  induction d with
  | nil => simp [flattenValues]
  | cons kv rest ih => simp [flattenValues, ih]

theorem get_job_stats_alookup (ts : List Target) (j : String) :
    (alookup (get_job_stats ts) j).getD emptyStat =
      (ts.filter (fun t => jobOf t == j)).foldl (fun v t => addTarget t v) emptyStat := by
  have h := alookup_foldl_upsert jobOf addTarget emptyStat ts [] j
  simpa [alookup] using h

theorem get_job_stats_isSome (ts : List Target) (j : String) :
    (alookup (get_job_stats ts) j).isSome = ts.any (fun t => jobOf t == j) := by
  have h := alookup_isSome_foldl_upsert jobOf addTarget emptyStat ts [] j
  simpa [alookup] using h

/-- C5: in every job entry of get_job_stats, the healthy-target count is
bounded by the total target count. -/
theorem job_stats_up_le_count (ts : List Target) :
    ∀ p ∈ get_job_stats ts, p.2.up ≤ p.2.count := by
  have h := foldl_upsert_forall (fun v : JobStat => v.up ≤ v.count) jobOf addTarget emptyStat
    (fun t v hv => by
      unfold addTarget
      by_cases hh : t.health = "up" <;> simp [hh] <;> omega)
    (by simp [emptyStat]) ts [] (by simp)
  exact fun p hp => h p hp

/-- Witness for C5 on two node-exporter targets, one healthy. -/
theorem job_stats_up_le_count_witness :
    (("node-exporter",
        (⟨2, 1, [⟨"http://a", "up", [("job", "node-exporter")]⟩,
          ⟨"http://b", "down", [("job", "node-exporter")]⟩]⟩ : JobStat)) :
          String × JobStat).2.up ≤
      (("node-exporter",
        (⟨2, 1, [⟨"http://a", "up", [("job", "node-exporter")]⟩,
          ⟨"http://b", "down", [("job", "node-exporter")]⟩]⟩ : JobStat)) :
          String × JobStat).2.count :=
  job_stats_up_le_count
    [⟨[("job", "node-exporter")], "up", "http://a"⟩,
      ⟨[("job", "node-exporter")], "down", "http://b"⟩]
    _ (by decide)

/-- C6: get_job_stats is invariant under permutation of the target list:
the same job keys are present, and each job keeps the same total and
healthy counts. -/
theorem job_stats_perm_invariant (ts ts' : List Target) (h : List.Perm ts ts') :
    (∀ j, (alookup (get_job_stats ts) j).isSome =
        (alookup (get_job_stats ts') j).isSome) ∧
    (∀ j, (jobStatOf ts j).count = (jobStatOf ts' j).count ∧
        (jobStatOf ts j).up = (jobStatOf ts' j).up) := by
  constructor
  · intro j
    rw [get_job_stats_isSome, get_job_stats_isSome, Bool.eq_iff_iff,
      List.any_eq_true, List.any_eq_true]
    exact ⟨fun ⟨a, ha, hp⟩ => ⟨a, h.mem_iff.mp ha, hp⟩,
      fun ⟨a, ha, hp⟩ => ⟨a, h.mem_iff.mpr ha, hp⟩⟩
  · intro j
    have hc : List.Perm (ts.filter (fun t => jobOf t == j))
        (ts'.filter (fun t => jobOf t == j)) := h.filter _
    constructor
    · unfold jobStatOf
      rw [get_job_stats_alookup, get_job_stats_alookup,
        foldl_addTarget_count, foldl_addTarget_count, hc.length_eq]
    · unfold jobStatOf
      rw [get_job_stats_alookup, get_job_stats_alookup,
        foldl_addTarget_up, foldl_addTarget_up, (hc.filter _).length_eq]

/-- Witness for C6 on a two-target list and its reversal. -/
theorem job_stats_perm_invariant_witness :
    (∀ j, (alookup (get_job_stats
          [⟨[("job", "a")], "up", "u1"⟩, ⟨[("job", "b")], "down", "u2"⟩]) j).isSome =
        (alookup (get_job_stats
          [⟨[("job", "b")], "down", "u2"⟩, ⟨[("job", "a")], "up", "u1"⟩]) j).isSome) ∧
    (∀ j, (jobStatOf [⟨[("job", "a")], "up", "u1"⟩, ⟨[("job", "b")], "down", "u2"⟩] j).count =
        (jobStatOf [⟨[("job", "b")], "down", "u2"⟩, ⟨[("job", "a")], "up", "u1"⟩] j).count ∧
      (jobStatOf [⟨[("job", "a")], "up", "u1"⟩, ⟨[("job", "b")], "down", "u2"⟩] j).up =
        (jobStatOf [⟨[("job", "b")], "down", "u2"⟩, ⟨[("job", "a")], "up", "u1"⟩] j).up) :=
  job_stats_perm_invariant
    [⟨[("job", "a")], "up", "u1"⟩, ⟨[("job", "b")], "down", "u2"⟩]
    [⟨[("job", "b")], "down", "u2"⟩, ⟨[("job", "a")], "up", "u1"⟩]
    (List.Perm.swap _ _ _)

/-- C7: get_job_stats drops and duplicates nothing: the per-job counts
sum to the number of input targets, and the endpoint records across all
jobs are, as a multiset, exactly one record per input target. -/
theorem job_stats_no_loss (ts : List Target) :
    ((get_job_stats ts).map (fun p => p.2.count)).sum = ts.length ∧
    List.Perm (flattenValues JobStat.endpoints (get_job_stats ts)) (ts.map targetEndpoint) := by
  have hperm : List.Perm (flattenValues JobStat.endpoints (get_job_stats ts))
      (ts.map targetEndpoint) := by
    have hp := flattenValues_foldl_perm JobStat.endpoints jobOf addTarget targetEndpoint
      emptyStat (fun t v => rfl) rfl ts []
    simpa [flattenValues] using hp
  refine ⟨?_, hperm⟩
  have hinv : ∀ p ∈ get_job_stats ts, p.2.count = p.2.endpoints.length :=
    foldl_upsert_forall (fun v : JobStat => v.count = v.endpoints.length) jobOf addTarget
      emptyStat (fun t v hv => by simp [addTarget, hv]) (by simp [emptyStat]) ts [] (by simp)
  have hmap : (get_job_stats ts).map (fun p => p.2.count) =
      (get_job_stats ts).map (fun p => (JobStat.endpoints p.2).length) :=
    List.map_congr_left (fun p hp => hinv p hp)
  rw [hmap, ← flattenValues_length, hperm.length_eq, List.length_map]

theorem get_all_metrics_error (rm : HttpOutcome MetricsBody)
    (h : upstreamFailed MetricsBody.status rm) :
    ∃ e, get_all_metrics rm = Except.error e := by
  cases rm with
  | exc msg => exact ⟨_, rfl⟩
  | resp code body =>
    have h' : (400 ≤ code ∧ code < 600) ∨
        ∃ b, body = some b ∧ MetricsBody.status b ≠ "success" := h
    rcases h' with hcode | ⟨b, hb, hs⟩
    · exact ⟨"Error querying Prometheus: HTTP error",
        by simp [get_all_metrics, query_prometheus, hcode]⟩
    · subst hb
      by_cases hc : 400 ≤ code ∧ code < 600
      · exact ⟨"Error querying Prometheus: HTTP error",
          by simp [get_all_metrics, query_prometheus, hc]⟩
      · exact ⟨"Failed to get metrics from Prometheus",
          by simp [get_all_metrics, query_prometheus, hc, hs]⟩

theorem get_targets_error (rt : HttpOutcome TargetsBody)
    (h : upstreamFailed TargetsBody.status rt) :
    ∃ e, get_targets rt = Except.error e := by
  cases rt with
  | exc msg => exact ⟨_, rfl⟩
  | resp code body =>
    have h' : (400 ≤ code ∧ code < 600) ∨
        ∃ b, body = some b ∧ TargetsBody.status b ≠ "success" := h
    rcases h' with hcode | ⟨b, hb, hs⟩
    · exact ⟨"Error querying Prometheus: HTTP error",
        by simp [get_targets, query_prometheus, hcode]⟩
    · subst hb
      by_cases hc : 400 ≤ code ∧ code < 600
      · exact ⟨"Error querying Prometheus: HTTP error",
          by simp [get_targets, query_prometheus, hc]⟩
      · exact ⟨"Failed to get targets from Prometheus",
          by simp [get_targets, query_prometheus, hc, hs]⟩

/-- C8: when either upstream query fails (the request raises on a
connection failure or timeout, the response carries an HTTP error status
such as 500, or the envelope's status field is not success), the run
ends failed: the message goes to the error stream, the exit code is 1,
and no report is written to standard output. -/
theorem query_failure_exits_nonzero (rm : HttpOutcome MetricsBody)
    (rt : HttpOutcome TargetsBody)
    (h : upstreamFailed MetricsBody.status rm ∨ upstreamFailed TargetsBody.status rt) :
    ∃ e, main rm rt = ProcOutcome.failed e := by
  rcases h with h | h
  · obtain ⟨e, he⟩ := get_all_metrics_error rm h
    exact ⟨e, by simp [main, he]⟩
  · cases hm : get_all_metrics rm with
    | error e => exact ⟨e, by simp [main, hm]⟩
    | ok metrics =>
      obtain ⟨e, he⟩ := get_targets_error rt h
      exact ⟨e, by simp [main, hm, he]⟩

/-- Witness for C8: an HTTP 500 from the metrics endpoint aborts the
run even though the targets endpoint would have answered. -/
theorem query_failure_exits_nonzero_witness :
    ∃ e, main (HttpOutcome.resp 500 (some ⟨"success", []⟩))
        (HttpOutcome.resp 200 (some ⟨"success", []⟩)) = ProcOutcome.failed e :=
  query_failure_exits_nonzero _ _ (Or.inl (Or.inl (by decide)))

/-- The derived-pattern test written as the specification describes it:
a single check that a colon occurs among the name's characters. -/
def hasColonChar (m : String) : Bool := m.data.contains ':'

theorem startsWithL_mem (pat : List Char) :
    ∀ s : List Char, startsWithL pat s = true → ∀ c ∈ pat, c ∈ s := by
  induction pat with
  | nil => intro s _ c hc; simp at hc
  | cons p ps ih =>
    intro s h c hc
    cases s with
    | nil => simp [startsWithL] at h
    | cons a as =>
      simp [startsWithL] at h
      rcases List.mem_cons.mp hc with hc | hc
      · subst hc; rw [h.1]; exact List.mem_cons_self _ _
      · exact List.mem_cons_of_mem _ (ih as h.2 c hc)

theorem containsL_mem (pat : List Char) :
    ∀ s : List Char, containsL pat s = true → ∀ c ∈ pat, c ∈ s := by
  intro s
  induction s with
  | nil =>
    intro h c hc
    cases pat with
    | nil => simp at hc
    | cons p ps => simp [containsL, startsWithL] at h
  | cons a as ih =>
    intro h c hc
    simp only [containsL] at h
    rcases (Bool.or_eq_true _ _).mp h with h1 | h1
    · exact startsWithL_mem pat (a :: as) h1 c hc
    · exact List.mem_cons_of_mem _ (ih h1 c hc)

theorem containsL_singleton (c : Char) (s : List Char) :
    containsL [c] s = true ↔ c ∈ s := by
  induction s with
  | nil => simp [containsL, startsWithL]
  | cons a as ih =>
    simp only [containsL, startsWithL, List.mem_cons]
    simp [ih]

/-- C9: on every string the derived-pattern test of categorize_metrics
(a RECORDING_RULE_PATTERNS entry occurs as a substring) equals the
single test that the name contains a colon character, because every
pattern contains a colon. -/
theorem recording_rule_check_eq_colon (m : String) :
    is_recording_rule m = hasColonChar m := by
  rw [Bool.eq_iff_iff]
  constructor
  · intro h
    unfold is_recording_rule at h
    rcases List.any_eq_true.mp h with ⟨pat, hpat, hc⟩
    have hcolon : ':' ∈ pat.data := by
      simp [RECORDING_RULE_PATTERNS] at hpat
      rcases hpat with h1 | h1 | h1 | h1 | h1 <;> subst h1 <;> decide
    have hm : ':' ∈ m.data := containsL_mem pat.data m.data hc ':' hcolon
    simpa [hasColonChar] using hm
  · intro h
    have hc : ':' ∈ m.data := by simpa [hasColonChar] using h
    unfold is_recording_rule
    apply List.any_eq_true.mpr
    refine ⟨":", by simp [RECORDING_RULE_PATTERNS], ?_⟩
    show strContains m ":" = true
    unfold strContains
    exact (containsL_singleton ':' m.data).mpr hc

theorem stepRaw_ok_iff (acc : List (String × JobStat)) (t : RawTarget) :
    (∃ acc2, stepRaw acc t = Except.ok acc2) ↔
      t.labels.isSome ∧ t.health.isSome ∧ t.scrapeUrl.isSome := by
  obtain ⟨lab, hea, sur⟩ := t
  cases lab <;> cases hea <;> cases sur <;> simp [stepRaw]

theorem runChecked_ok_iff (ts : List RawTarget) :
    ∀ acc, (∃ r, runChecked acc ts = Except.ok r) ↔
      ∀ t ∈ ts, t.labels.isSome ∧ t.health.isSome ∧ t.scrapeUrl.isSome := by
  induction ts with
  | nil => intro acc; simp [runChecked]
  | cons t ts ih =>
    intro acc
    rw [List.forall_mem_cons]
    cases hstep : stepRaw acc t with
    | error e =>
      simp only [runChecked, hstep]
      constructor
      · rintro ⟨r, hr⟩
        simp at hr
      · rintro ⟨hp, -⟩
        have hok := (stepRaw_ok_iff acc t).mpr hp
        rw [hstep] at hok
        obtain ⟨acc2, hacc2⟩ := hok
        simp at hacc2
    | ok acc2 =>
      simp only [runChecked, hstep]
      have hhead := (stepRaw_ok_iff acc t).mp ⟨acc2, hstep⟩
      constructor
      · intro hex
        exact ⟨hhead, (ih acc2).mp hex⟩
      · rintro ⟨-, htail⟩
        exact (ih acc2).mpr htail

/-- C10: get_job_stats over raw JSON targets succeeds exactly when every
input target carries the labels, health and scrapeUrl fields; the
success condition never mentions the job key, which may be absent and
defaults to unknown, and under the precondition no key-lookup error
branch can fire. -/
theorem job_stats_total_iff_fields_present (ts : List RawTarget) :
    ((∃ r, get_job_stats_checked ts = Except.ok r) ↔
      ∀ t ∈ ts, t.labels.isSome ∧ t.health.isSome ∧ t.scrapeUrl.isSome) ∧
    (∀ t : Target, alookup t.labels "job" = none → jobOf t = "unknown") := by
  refine ⟨runChecked_ok_iff ts [], ?_⟩
  intro t ht
  unfold jobOf dictGet
  rw [ht]

example : bucketOf "up" = "Prometheus" := by decide
example : bucketOf "scrape_duration_seconds" = "Prometheus" := by decide
example : bucketOf "kube_pod_info" = "kube-state-metrics" := by decide
example : bucketOf "cluster:node_cpu:sum_rate5m" = "Recording Rules" := by decide
example : bucketOf "foo_bar" = "Other/Unknown" := by decide
example : bucketOf "kube_pod:x" = "Recording Rules" := by decide
example :
    categorize_metrics ["up", "kube_pod_info", "foo_bar"] =
      [("Prometheus", ["up"]), ("kube-state-metrics", ["kube_pod_info"]),
        ("Other/Unknown", ["foo_bar"])] := by decide

end AuditMetrics
